import Mathlib

/-!
Verification of the bartender-journal feed service (backend/app/main.py,
backend/app/cache.py, backend/app/models.py).

The feed pipeline is modelled shallowly:
* posts and comments are records over `Nat` timestamps and ids (the store
  orders rows by `(created_at, id)`; `Nat × Nat` with lexicographic order is
  a faithful carrier for that order);
* the store's `ORDER BY created_at DESC, id DESC LIMIT n` query is modelled as
  sorting the candidate rows by the descending lexicographic order and taking
  `n` of them;
* the cursor codec (`encode_cursor`/`decode_cursor`) is modelled at the byte
  level: url-safe base64 over the exact JSON text `json.dumps` produces,
  with the source's padding strip / re-pad steps;
* Python exceptions are modelled with `Except`: a function that may let an
  exception escape returns `Except Unit α`, and a `try/except` block is a
  `match` on the guarded computation's outcome.
-/

namespace BartenderJournal

/-- Post variant tag (`PostType` in models.py / schemas.py). -/
inductive PostType where
  | text
  | link
  | photo
deriving DecidableEq, Repr

/-- A stored post row (`Post` in models.py).  `created_at` and `id` are the
sort key; ids are unique in the real store (primary key). -/
structure Post where
  created_at : Nat
  id : Nat
  ptype : PostType
  title : Option String
  body : Option String
  link_url : Option String
  image_url : Option String
  author_id : Option Nat
  author_name : Option String
deriving DecidableEq, Repr

/-- A stored comment row (`Comment` in models.py). -/
structure Comment where
  id : Nat
  post_id : Nat
  created_at : Nat
  body : String
  author_id : Option Nat
  author_name : Option String
deriving DecidableEq, Repr

/-- The `(created_at, id)` watermark of a post. -/
def postKey (p : Post) : Nat × Nat :=
  (p.created_at, p.id)

/-- Strict lexicographic order on `(created_at, id)` watermarks. -/
def kLt (x y : Nat × Nat) : Prop :=
  x.1 < y.1 ∨ (x.1 = y.1 ∧ x.2 < y.2)

/-- Weak lexicographic order on `(created_at, id)` watermarks. -/
def kLe (x y : Nat × Nat) : Prop :=
  x.1 < y.1 ∨ (x.1 = y.1 ∧ x.2 ≤ y.2)

instance (x y : Nat × Nat) : Decidable (kLt x y) := by
  unfold kLt; infer_instance

instance (x y : Nat × Nat) : Decidable (kLe x y) := by
  unfold kLe; infer_instance

/-- `a` may precede `b` in the feed: descending `(created_at, id)` order
(`ORDER BY created_at DESC, id DESC` in `list_posts`). -/
def feedOrder (a b : Post) : Prop :=
  kLe (postKey b) (postKey a)

instance : DecidableRel feedOrder := fun a b => by
  unfold feedOrder; infer_instance

instance : IsTotal Post feedOrder :=
  ⟨fun a b => by unfold feedOrder kLe; omega⟩

instance : IsTrans Post feedOrder :=
  ⟨fun a b c hab hbc => by unfold feedOrder kLe at *; omega⟩

/-- Strict descent between adjacent feed rows. -/
def feedStrict (a b : Post) : Prop :=
  kLt (postKey b) (postKey a)

instance : DecidableRel feedStrict := fun a b => by
  unfold feedStrict; infer_instance

instance : IsAntisymm Post feedStrict :=
  ⟨fun a b hab hba => by unfold feedStrict kLt at *; omega⟩

/-- The store's `ORDER BY created_at DESC, id DESC` result order. -/
def sortPostsDesc (l : List Post) : List Post :=
  List.insertionSort feedOrder l

/-- The keyset predicate of `list_posts` (main.py:183-186):
`created_at < ct OR (created_at = ct AND id < cid)`. -/
def cursorTest (k : Nat × Nat) (p : Post) : Bool :=
  decide (kLt (postKey p) k)

/-- The candidate rows of a feed read: all rows when no cursor was supplied,
otherwise the rows passing the keyset predicate (main.py:180-186). -/
def candAfter (store : List Post) (cursor : Option (Nat × Nat)) : List Post :=
  match cursor with
  | none => store
  | some k => store.filter (cursorTest k)

/-- `limit = max(1, min(limit, 50))` (main.py:165). -/
def clampLimit (limit : Int) : Int :=
  max 1 (min limit 50)

/-- Effective page size as a `Nat`. -/
def effLimit (limit : Int) : Nat :=
  (clampLimit limit).toNat

/-- The rows the store hands back: candidates in feed order, at most
`limit + 1` of them (`.limit(limit + 1)`, main.py:178). -/
def fetchRows (store : List Post) (limit : Int) (cursor : Option (Nat × Nat)) :
    List Post :=
  (sortPostsDesc (candAfter store cursor)).take (effLimit limit + 1)

/-- One feed page: the emitted rows plus the optional continuation watermark
(the token layer over the watermark is the cursor codec, modelled below). -/
structure Page where
  items : List Post
  nextCursor : Option (Nat × Nat)
deriving DecidableEq, Repr

/-- The feed read `list_posts` (main.py:159-222), cache aside: clamp the
limit, fetch `limit + 1` candidate rows, detect `has_more`, truncate to
`limit`, and derive `next_cursor` from the last emitted row. -/
def list_posts (store : List Post) (limit : Int) (cursor : Option (Nat × Nat)) :
    Page :=
  let lim := effLimit limit
  let rows := fetchRows store limit cursor
  let hasMore := decide (lim < rows.length)
  let items := rows.take lim
  let nextCursor :=
    if hasMore && !items.isEmpty then items.getLast?.map postKey else none
  ⟨items, nextCursor⟩

/-- Repeated feed reads: call `list_posts`, follow `next_cursor` until it is
absent, concatenating the pages.  `limits` gives the limit used by each
successive call; `fuel` bounds the recursion (the pagination theorem shows
`store.length + 1` suffices). -/
def paginateAux (store : List Post) (limits : Nat → Int) :
    Nat → Nat → Option (Nat × Nat) → List Post
  | 0, _, _ => []
  | fuel + 1, step, cur =>
    let pg := list_posts store (limits step) cur
    match pg.nextCursor with
    | none => pg.items
    | some k => pg.items ++ paginateAux store limits fuel (step + 1) (some k)

/-- Full pagination sweep from an empty cursor. -/
def paginate (store : List Post) (limits : Nat → Int) : List Post :=
  paginateAux store limits (store.length + 1) 0 none

/-! ## Cursor codec (main.py:92-105)

`encode_cursor` serializes `{"created_at": ts.isoformat(), "id": str(id)}`
to JSON, url-safe-base64-encodes the UTF-8 bytes and strips the trailing
`=` padding; `decode_cursor` re-pads, base64-decodes and parses the JSON.
Bytes and characters are modelled as `Nat` codes; the timestamp and the id
travel as their rendered strings (byte lists), since the codec only ever
touches those renderings. -/

/-- The url-safe base64 alphabet (`base64.urlsafe_b64encode`): sextet index
to character code, with `-` and `_` for 62 and 63. -/
def b64Char (s : Nat) : Nat :=
  if s < 26 then s + 65
  else if s < 52 then s + 71
  else if s < 62 then s - 4
  else if s = 62 then 45
  else 95

/-- Inverse alphabet lookup: character code to sextet, `none` off-alphabet. -/
def b64CharInv (c : Nat) : Option Nat :=
  if 65 ≤ c ∧ c ≤ 90 then some (c - 65)
  else if 97 ≤ c ∧ c ≤ 122 then some (c - 71)
  else if 48 ≤ c ∧ c ≤ 57 then some (c + 4)
  else if c = 45 then some 62
  else if c = 95 then some 63
  else none

/-- Url-safe base64 of a byte list, padded with `=` (code 61) as
`base64.urlsafe_b64encode` does. -/
def b64Encode : List Nat → List Nat
  | [] => []
  | [a] => [b64Char (a / 4), b64Char (a % 4 * 16), 61, 61]
  | [a, b] => [b64Char (a / 4), b64Char (a % 4 * 16 + b / 16),
               b64Char (b % 16 * 4), 61]
  | a :: b :: c :: rest =>
    b64Char (a / 4) :: b64Char (a % 4 * 16 + b / 16) ::
    b64Char (b % 16 * 4 + c / 64) :: b64Char (c % 64) :: b64Encode rest

/-- Url-safe base64 decoding of a padded token
(`base64.urlsafe_b64decode`), `none` on malformed input. -/
def b64Decode : List Nat → Option (List Nat)
  | [] => some []
  | c1 :: c2 :: c3 :: c4 :: rest =>
    if c3 = 61 ∧ c4 = 61 ∧ rest = [] then
      match b64CharInv c1, b64CharInv c2 with
      | some s1, some s2 => some [s1 * 4 + s2 / 16]
      | _, _ => none
    else if c4 = 61 ∧ rest = [] then
      match b64CharInv c1, b64CharInv c2, b64CharInv c3 with
      | some s1, some s2, some s3 =>
        some [s1 * 4 + s2 / 16, s2 % 16 * 16 + s3 / 4]
      | _, _, _ => none
    else
      match b64CharInv c1, b64CharInv c2, b64CharInv c3, b64CharInv c4,
            b64Decode rest with
      | some s1, some s2, some s3, some s4, some bs =>
        some ((s1 * 4 + s2 / 16) :: (s2 % 16 * 16 + s3 / 4) ::
              (s3 % 4 * 64 + s4) :: bs)
      | _, _, _, _, _ => none
  | _ => none

/-- `.rstrip("=")` (main.py:95): drop every trailing `=`. -/
def stripPad (l : List Nat) : List Nat :=
  (l.reverse.dropWhile (fun c => c == 61)).reverse

/-- `padding = "=" * (-len(cursor) % 4)` then append (main.py:100-101). -/
def repad (l : List Nat) : List Nat :=
  l ++ List.replicate ((4 - l.length % 4) % 4) 61

/-- Byte codes of `{"created_at": "` — the JSON head `json.dumps` emits for
the payload dict (main.py:93-94). -/
def jsonHead : List Nat :=
  [123, 34, 99, 114, 101, 97, 116, 101, 100, 95, 97, 116, 34, 58, 32, 34]

/-- Byte codes of `", "id": "` — between the two JSON string values. -/
def jsonMid : List Nat :=
  [44, 32, 34, 105, 100, 34, 58, 32, 34]

/-- Byte codes of `"}` — the JSON tail. -/
def jsonTail : List Nat :=
  [34, 125]

/-- The exact bytes of `json.dumps({"created_at": ts, "id": id})` for
rendered strings `ts`, `id` (both quote-free ASCII in the source: an
ISO-8601 timestamp and a UUID). -/
def serializePayload (ts id : List Nat) : List Nat :=
  jsonHead ++ ts ++ (34 :: jsonMid) ++ id ++ jsonTail

/-- Consume an exact literal from the front of the input. -/
def dropLit : List Nat → List Nat → Option (List Nat)
  | [], bs => some bs
  | _ :: _, [] => none
  | l :: ls, b :: bs => if l = b then dropLit ls bs else none

/-- Read a JSON string body up to (and consuming) the closing quote. -/
def takeUntilQuote : List Nat → Option (List Nat × List Nat)
  | [] => none
  | c :: rest =>
    if c = 34 then some ([], rest)
    else (takeUntilQuote rest).map (fun pr => (c :: pr.1, pr.2))

/-- `json.loads` followed by the two field reads of `decode_cursor`
(main.py:102-103), specialized to the payload shape `encode_cursor`
produces: parse the two string fields back out of the JSON bytes. -/
def parsePayload (bs : List Nat) : Option (List Nat × List Nat) := do
  let r1 ← dropLit jsonHead bs
  let (ts, r2) ← takeUntilQuote r1
  let r3 ← dropLit jsonMid r2
  let (pid, r4) ← takeUntilQuote r3
  let r5 ← dropLit [125] r4
  if r5 = [] then some (ts, pid) else none

/-- `encode_cursor` (main.py:92-95): JSON-serialize the watermark, base64
it, strip the padding. -/
def encode_cursor (ts id : List Nat) : List Nat :=
  stripPad (b64Encode (serializePayload ts id))

/-- `decode_cursor` (main.py:98-105): re-pad, base64-decode, parse the JSON
payload; `none` models the caught exception turned into HTTP 400. -/
def decode_cursor (tok : List Nat) : Option (List Nat × List Nat) :=
  (b64Decode (repad tok)).bind parsePayload

/-! ## Cache-aside layer (cache.py:14-54, settings.py:10-24)

Python exceptions are explicit: a computation that may raise has type
`Except Unit α` (`.error` = an exception escaping to the caller), and the
source's `try/except` blocks become `match`es on such outcomes.  Both
cache operations start by calling `get_redis()` OUTSIDE every try block;
`get_redis` reads `settings.redis_url` — an attribute the `Settings`
class (settings.py:10-24) does not declare, so the access raises
`AttributeError` (pydantic models raise on undeclared attribute reads;
`extra="ignore"` discards extras rather than storing them).  The module
global `_redis` starts as `None` and can never be assigned, since the
assignment at cache.py:21 evaluates `settings.redis_url` first. -/

/-- The fields the `Settings` class declares (settings.py:13-24).
`redis_url` is not among them. -/
structure Settings where
  app_name : String
  environment : String
  cors_origins : List String
  database_url : String
  jwt_secret_key : String
  jwt_algorithm : String
  jwt_access_token_expires_minutes : Nat
  public_base_url : Option String
deriving Repr

/-- The attribute access `settings.redis_url` (cache.py:19, 21).
`Settings` declares no `redis_url` field, so the read raises
`AttributeError`: the access is the raising computation `.error ()`.
(`.ok none` / `.ok (some url)` would be an unset / set optional field —
unreachable for this attribute in the frozen source.) -/
def settingsRedisUrl : Except Unit (Option String) :=
  .error ()

/-- `get_redis` (cache.py:14-22).  `rGlobal` is the module global `_redis`
(`none` at process start).  A cached client is returned; otherwise the
`settings.redis_url` read at line 19 runs — and raises — with no try block
around it, so the exception propagates to the caller. -/
def get_redis (rGlobal : Option Unit) : Except Unit (Option Unit) :=
  match rGlobal with
  | some r => .ok (some r)
  | none =>
    match settingsRedisUrl with
    | .error e => .error e
    | .ok none => .ok none
    | .ok (some _) => .ok (some ())

/-- `cache_get_json` (cache.py:25-39): `get_redis()` runs first, outside
both try blocks, so its exception escapes; otherwise no client ⇒ miss, a
`RedisError` from `client.get` ⇒ miss, a stored `nil` ⇒ miss, an exception
from `json.loads` ⇒ miss.  The result type `Except Unit (Option α)`
records whether an exception escapes (`.error`) and otherwise the
hit/miss value. -/
def cache_get_json (rGlobal : Option Unit)
    (transportGet : Except Unit (Option String))
    (parseJson : String → Except Unit α) : Except Unit (Option α) :=
  match get_redis rGlobal with
  | .error e => .error e
  | .ok none => .ok none
  | .ok (some _) =>
    match transportGet with
    | .error _ => .ok none
    | .ok none => .ok none
    | .ok (some v) =>
      match parseJson v with
      | .error _ => .ok none
      | .ok j => .ok (some j)

/-- `cache_set_json` (cache.py:42-54) over an abstract cache state `σ`:
`get_redis()` runs first, outside both try blocks, so its exception
escapes; otherwise no client, a `TypeError` from `json.dumps`, or a
`RedisError` from `client.set` each leave the state untouched, and a
successful transport call adopts the updated state. -/
def cache_set_json (rGlobal : Option Unit)
    (serializeRes : Except Unit String)
    (setOp : String → Except Unit σ) (st : σ) : Except Unit σ :=
  match get_redis rGlobal with
  | .error e => .error e
  | .ok none => .ok st
  | .ok (some _) =>
    match serializeRes with
    | .error _ => .ok st
    | .ok data =>
      match setOp data with
      | .error _ => .ok st
      | .ok st' => .ok st'

/-- The cache-wrapped feed read (main.py:167-172, 220-222): consult the
cache; an escaping exception propagates, a hit returns the cached page, a
miss runs the planner.  (The trailing cache population does not alter the
returned page.) -/
def list_posts_cached (rGlobal : Option Unit)
    (transportGet : Except Unit (Option String))
    (parseJson : String → Except Unit Page)
    (store : List Post) (limit : Int) (cursor : Option (Nat × Nat)) :
    Except Unit Page :=
  match cache_get_json rGlobal transportGet parseJson with
  | .error e => .error e
  | .ok (some pg) => .ok pg
  | .ok none => .ok (list_posts store limit cursor)

/-! ## Write paths and comments (main.py:225-316, 267-285) -/

/-- A resolved principal (`get_optional_user` result). -/
structure User where
  id : Nat
  username : String
deriving DecidableEq, Repr

/-- `PostCreateRequest` (schemas.py:38-44).  `link_url`/`image_url` are
pydantic `HttpUrl`s, so a present value is a nonempty string. -/
structure PostCreateRequest where
  ptype : PostType
  title : Option String
  body : Option String
  link_url : Option String
  image_url : Option String
  author_name : Option String
deriving DecidableEq, Repr

/-- `CommentCreateRequest` (schemas.py:59-61). -/
structure CommentCreateRequest where
  body : String
  author_name : Option String
deriving DecidableEq, Repr

/-- An `HTTPException` raised to the client. -/
structure HError where
  status : Nat
  detail : String
deriving DecidableEq, Repr

/-- Python truthiness of an optional string: `None` and `""` are falsy. -/
def optStrFalsy : Option String → Bool
  | none => true
  | some s => s = ""

/-- `create_post` (main.py:225-264): per-variant validation, then the row
is built with `author_id = user.id if user else None` and
`author_name = None if user else (payload.author_name or "Guest")`.
Returns the stored row; `newId`/`newTime` stand for the store-generated
id and `created_at`. -/
def create_post (payload : PostCreateRequest) (user : Option User)
    (newId newTime : Nat) : Except HError Post :=
  if payload.ptype = PostType.text && optStrFalsy payload.body then
    .error ⟨400, "body is required for text posts"⟩
  else if payload.ptype = PostType.link && payload.link_url.isNone then
    .error ⟨400, "link_url is required for link posts"⟩
  else if payload.ptype = PostType.photo && payload.image_url.isNone then
    .error ⟨400, "image_url is required for photo posts"⟩
  else
    let authorName :=
      match user with
      | some u => u.username
      | none => match payload.author_name with
                | some s => if s = "" then "Guest" else s
                | none => "Guest"
    .ok
      { created_at := newTime
        id := newId
        ptype := payload.ptype
        title := payload.title
        body := payload.body
        link_url := payload.link_url
        image_url := payload.image_url
        author_id := user.map (fun u => u.id)
        author_name := match user with
                       | some _ => none
                       | none => some authorName }

/-- The post store after a `create_post` request: unchanged when validation
failed (the transaction never starts), appended to otherwise. -/
def applyCreatePost (store : List Post) (payload : PostCreateRequest)
    (user : Option User) (newId newTime : Nat) : List Post :=
  match create_post payload user newId newTime with
  | .error _ => store
  | .ok p => store ++ [p]

/-- `create_comment` (main.py:288-316): the parent post must exist
(404 otherwise), then the row is built with the same author resolution as
`create_post`. -/
def create_comment (store : List Post) (post_id : Nat)
    (payload : CommentCreateRequest) (user : Option User)
    (newId newTime : Nat) : Except HError Comment :=
  if store.any (fun p => p.id == post_id) then
    let authorName :=
      match user with
      | some u => u.username
      | none => match payload.author_name with
                | some s => if s = "" then "Guest" else s
                | none => "Guest"
    .ok
      { id := newId
        post_id := post_id
        created_at := newTime
        body := payload.body
        author_id := user.map (fun u => u.id)
        author_name := match user with
                       | some _ => none
                       | none => some authorName }
  else
    .error ⟨404, "Post not found"⟩

/-- Ascending `(created_at, id)` order on comments
(`ORDER BY created_at ASC, id ASC`, main.py:273). -/
def commentOrder (a b : Comment) : Prop :=
  kLe (a.created_at, a.id) (b.created_at, b.id)

instance : DecidableRel commentOrder := fun a b => by
  unfold commentOrder; infer_instance

instance : IsTotal Comment commentOrder :=
  ⟨fun a b => by unfold commentOrder kLe; omega⟩

instance : IsTrans Comment commentOrder :=
  ⟨fun a b c hab hbc => by unfold commentOrder kLe at *; omega⟩

/-- `list_comments` (main.py:267-285): the post's comments in ascending
`(created_at, id)` order.  No parent-existence check: the post store is not
consulted. -/
def list_comments (cstore : List Comment) (post_id : Nat) : List Comment :=
  List.insertionSort commentOrder
    (cstore.filter (fun c => c.post_id == post_id))

/-! ## Order and sort lemmas -/

lemma kLt_irrefl (x : Nat × Nat) : ¬ kLt x x := by
  unfold kLt; omega

lemma kLt_asymm {x y : Nat × Nat} (h : kLt x y) : ¬ kLt y x := by
  unfold kLt at *; omega

lemma kLt_trans {x y z : Nat × Nat} (hxy : kLt x y) (hyz : kLt y z) :
    kLt x z := by
  unfold kLt at *; omega

lemma kLe_of_kLt {x y : Nat × Nat} (h : kLt x y) : kLe x y := by
  unfold kLt kLe at *; omega

/-- Pairwise-distinct `(created_at, id)` keys: the snapshot hypothesis of
the pagination law. -/
def distinctKeys (l : List Post) : Prop :=
  l.Pairwise (fun a b => postKey a ≠ postKey b)

lemma distinctKeys_of_perm {l l' : List Post} (hp : List.Perm l l')
    (hd : distinctKeys l) : distinctKeys l' :=
  (hp.pairwise_iff (fun h => Ne.symm h)).mp hd

lemma distinctKeys_filter {l : List Post} (p : Post → Bool)
    (hd : distinctKeys l) : distinctKeys (l.filter p) :=
  List.Pairwise.sublist (List.filter_sublist l) hd

lemma sortPostsDesc_perm (l : List Post) : List.Perm (sortPostsDesc l) l :=
  List.perm_insertionSort feedOrder l

lemma sortPostsDesc_sorted (l : List Post) :
    (sortPostsDesc l).Pairwise feedOrder :=
  List.sorted_insertionSort feedOrder l

lemma pairwise_strict_of_sorted :
    ∀ {l : List Post}, l.Pairwise feedOrder →
      l.Pairwise (fun a b => postKey a ≠ postKey b) → l.Pairwise feedStrict
  | [], _, _ => List.Pairwise.nil
  | a :: tl, hs, hd => by
    rw [List.pairwise_cons] at hs hd ⊢
    refine ⟨fun b hb => ?_, pairwise_strict_of_sorted hs.2 hd.2⟩
    have h1 := hs.1 b hb
    have h2 := hd.1 b hb
    unfold feedOrder kLe at h1
    unfold feedStrict kLt
    rcases h1 with h | ⟨he, hle⟩
    · exact Or.inl h
    · refine Or.inr ⟨he, lt_of_le_of_ne hle ?_⟩
      intro hid
      exact h2 (by unfold postKey; exact Prod.ext he.symm hid.symm)

lemma sortPostsDesc_strict {l : List Post} (hd : distinctKeys l) :
    (sortPostsDesc l).Pairwise feedStrict :=
  pairwise_strict_of_sorted (sortPostsDesc_sorted l)
    (distinctKeys_of_perm (sortPostsDesc_perm l).symm hd)

/-- In a strictly descending list, the rows strictly below the watermark at
index `n` are exactly the rows after index `n`. -/
lemma filter_cursorTest_get :
    ∀ (L : List Post), L.Pairwise feedStrict →
      ∀ (n : Nat) (hn : n < L.length),
        L.filter (cursorTest (postKey L[n])) = L.drop (n + 1)
  | [], _, n, hn => by simp at hn
  | a :: tl, hs, 0, hn => by
    rw [List.pairwise_cons] at hs
    have ha : cursorTest (postKey a) a = false := by
      simp [cursorTest, kLt_irrefl]
    have htl : tl.filter (cursorTest (postKey a)) = tl := by
      refine List.filter_eq_self.mpr (fun b hb => ?_)
      have := hs.1 b hb
      unfold feedStrict at this
      simp [cursorTest, this]
    simp [List.filter_cons, ha, htl]
  | a :: tl, hs, n + 1, hn => by
    rw [List.pairwise_cons] at hs
    have hn' : n < tl.length := by simpa using hn
    have hget : (a :: tl)[n + 1] = tl[n] := by
      simp
    have hmem : tl[n] ∈ tl := List.getElem_mem hn'
    have ha : cursorTest (postKey tl[n]) a = false := by
      have hstr := hs.1 _ hmem
      unfold feedStrict at hstr
      simp [cursorTest, kLt_asymm hstr]
    rw [hget, List.filter_cons]
    simp only [ha, Bool.false_eq_true, if_false]
    rw [filter_cursorTest_get tl hs.2 n hn']
    rfl

/-- Taking a new watermark at index `n` of the current sorted candidate
list, the next call's sorted candidate list is exactly the rows after
index `n`. -/
lemma sortDesc_candAfter_step (store : List Post) (hd : distinctKeys store)
    (c : Option (Nat × Nat)) (n : Nat)
    (hn : n < (sortPostsDesc (candAfter store c)).length) :
    sortPostsDesc (candAfter store
        (some (postKey (sortPostsDesc (candAfter store c))[n]))) =
      (sortPostsDesc (candAfter store c)).drop (n + 1) := by
  set L := sortPostsDesc (candAfter store c) with hL
  have hdc : distinctKeys (candAfter store c) := by
    cases c with
    | none => exact hd
    | some k => exact distinctKeys_filter _ hd
  have hstrict : L.Pairwise feedStrict := by
    rw [hL]; exact sortPostsDesc_strict hdc
  have hfilter : L.filter (cursorTest (postKey L[n])) = L.drop (n + 1) :=
    filter_cursorTest_get L hstrict n hn
  -- the new candidate set, read off the store, is a permutation of the
  -- filtered sorted list
  have hperm : List.Perm (candAfter store (some (postKey L[n])))
      (L.filter (cursorTest (postKey L[n]))) := by
    have hLc : List.Perm (candAfter store c) L := (sortPostsDesc_perm _).symm
    cases c with
    | none =>
      simpa [candAfter] using hLc.filter (cursorTest (postKey L[n]))
    | some k0 =>
      -- the watermark itself passes the old cursor predicate, so filtering
      -- by the new watermark alone equals filtering by both
      have htmem : L[n] ∈ candAfter store (some k0) := by
        have : L[n] ∈ L := List.getElem_mem hn
        exact ((sortPostsDesc_perm _).mem_iff).mp (hL ▸ this)
      have htk0 : kLt (postKey L[n]) k0 := by
        have := List.of_mem_filter (by simpa [candAfter] using htmem)
        simpa [cursorTest] using this
      have hcongr : store.filter (cursorTest (postKey L[n])) =
          (store.filter (cursorTest k0)).filter
            (cursorTest (postKey L[n])) := by
        rw [List.filter_filter]
        refine List.filter_congr (fun a _ => ?_)
        by_cases hak : cursorTest (postKey L[n]) a = true
        · have hkt : kLt (postKey a) (postKey L[n]) := by
            simpa [cursorTest] using hak
          have : cursorTest k0 a = true := by
            simp [cursorTest, kLt_trans hkt htk0]
          simp [hak, this]
        · simp [Bool.not_eq_true] at hak
          simp [hak]
      show List.Perm (store.filter (cursorTest (postKey L[n]))) _
      rw [hcongr]
      have hLc' : List.Perm (store.filter (cursorTest k0)) L := by
        simpa [candAfter] using hLc
      exact hLc'.filter (cursorTest (postKey L[n]))
  -- both sides are strictly sorted and permutations of each other
  have hperm2 : List.Perm
      (sortPostsDesc (candAfter store (some (postKey L[n]))))
      (L.drop (n + 1)) :=
    ((sortPostsDesc_perm _).trans hperm).trans (hfilter ▸ List.Perm.refl _)
  have hs1 : (sortPostsDesc (candAfter store
      (some (postKey L[n])))).Pairwise feedStrict :=
    sortPostsDesc_strict (distinctKeys_filter _ hd)
  have hs2 : (L.drop (n + 1)).Pairwise feedStrict :=
    List.Pairwise.sublist (List.drop_sublist _ _) hstrict
  exact List.eq_of_perm_of_sorted hperm2 hs1 hs2

lemma effLimit_pos (limit : Int) : 1 ≤ effLimit limit := by
  unfold effLimit clampLimit
  omega

lemma effLimit_le_fifty (limit : Int) : effLimit limit ≤ 50 := by
  unfold effLimit clampLimit
  omega

lemma getLast?_take_of_le {L : List Post} {n : Nat} (h1 : 1 ≤ n)
    (h2 : n ≤ L.length) : (L.take n).getLast? = L[n - 1]? := by
  rw [List.getLast?_eq_getElem?]
  have hlen : (L.take n).length = n := by
    simp [List.length_take]
    omega
  rw [hlen, List.getElem?_take_of_lt (by omega)]

/-- A feed page when the candidates fit the page: everything is emitted and
there is no continuation cursor. -/
lemma list_posts_of_short (store : List Post) (limit : Int)
    (cursor : Option (Nat × Nat))
    (h : (sortPostsDesc (candAfter store cursor)).length ≤ effLimit limit) :
    list_posts store limit cursor =
      ⟨sortPostsDesc (candAfter store cursor), none⟩ := by
  unfold list_posts fetchRows
  set L := sortPostsDesc (candAfter store cursor) with hL
  have h1 : L.take (effLimit limit + 1) = L := List.take_of_length_le (by omega)
  have h2 : ¬ (effLimit limit < L.length) := by omega
  simp [h1, h2, List.take_of_length_le h]

/-- A feed page when more candidates exist than the page size: the page is
the first `limit` rows, and the continuation cursor is the watermark of the
last emitted row. -/
lemma list_posts_of_long (store : List Post) (limit : Int)
    (cursor : Option (Nat × Nat))
    (h : effLimit limit < (sortPostsDesc (candAfter store cursor)).length) :
    list_posts store limit cursor =
      ⟨(sortPostsDesc (candAfter store cursor)).take (effLimit limit),
        some (postKey
          (sortPostsDesc (candAfter store cursor))[effLimit limit - 1])⟩ := by
  unfold list_posts fetchRows
  set lim := effLimit limit with hlimdef
  set L := sortPostsDesc (candAfter store cursor) with hL
  have hlim1 : 1 ≤ lim := effLimit_pos limit
  have hrowlen : (L.take (lim + 1)).length = lim + 1 := by
    simp [List.length_take]
    omega
  have hitems : (L.take (lim + 1)).take lim = L.take lim := by
    rw [List.take_take]
    congr 1
    omega
  have hitemlen : (L.take lim).length = lim := by
    simp [List.length_take]
    omega
  have hne : (L.take lim).isEmpty = false := by
    cases hE : L.take lim with
    | nil => rw [hE] at hitemlen; simp at hitemlen; omega
    | cons x xs => rfl
  have hlast : (L.take lim).getLast? = some L[lim - 1] := by
    rw [getLast?_take_of_le hlim1 (by omega)]
    exact List.getElem?_eq_getElem (by omega)
  simp only [hrowlen, hitems]
  have hmore : decide (lim < lim + 1) = true := by simp
  simp [hmore, hne, hlast]

/-- With enough fuel, the cursor-following sweep flattens to the full
sorted candidate list of its starting cursor. -/
lemma paginateAux_sweep (store : List Post) (hd : distinctKeys store)
    (limits : Nat → Int) :
    ∀ (fuel step : Nat) (c : Option (Nat × Nat)),
      (sortPostsDesc (candAfter store c)).length < fuel →
      paginateAux store limits fuel step c =
        sortPostsDesc (candAfter store c)
  | 0, _, _, hfuel => by omega
  | fuel + 1, step, c, hfuel => by
    set L := sortPostsDesc (candAfter store c) with hL
    set lim := effLimit (limits step) with hlim
    have hlim1 : 1 ≤ lim := effLimit_pos _
    by_cases hmore : lim < L.length
    · -- a full page is emitted and the sweep continues from the watermark
      have hpg := list_posts_of_long store (limits step) c (hL ▸ hmore)
      have hstep := sortDesc_candAfter_step store hd c (lim - 1)
        (by omega : lim - 1 < L.length)
      have hdroplen : (L.drop lim).length = L.length - lim := by
        simp
      have hrec : paginateAux store limits fuel (step + 1)
          (some (postKey L[lim - 1])) =
            sortPostsDesc (candAfter store (some (postKey L[lim - 1]))) :=
        paginateAux_sweep store hd limits fuel (step + 1)
          (some (postKey L[lim - 1]))
          (by
            rw [hstep]
            have : (lim - 1) + 1 = lim := by omega
            rw [this, hdroplen]
            omega)
      show paginateAux store limits (fuel + 1) step c = L
      rw [paginateAux, hpg]
      simp only []
      rw [hrec, hstep]
      have : (lim - 1) + 1 = lim := by omega
      rw [this]
      exact List.take_append_drop lim L
    · -- the whole candidate list fits: last page, no cursor
      have hpg := list_posts_of_short store (limits step) c
        (by omega : L.length ≤ lim)
      show paginateAux store limits (fuel + 1) step c = L
      rw [paginateAux, hpg]

/-- C1.  For every fixed snapshot of N posts with pairwise-distinct
`(created_at, id)` pairs, repeatedly calling the feed read `list_posts`
starting with no cursor and passing each returned `next_cursor` to the next
call until it is absent concatenates to exactly the N posts, each appearing
once (the concatenation is a permutation of the snapshot), in descending
`(created_at, id)` order (pairwise strict descent). -/
theorem c1_pagination_total_order (store : List Post) (limits : Nat → Int)
    (hd : store.Pairwise (fun a b => postKey a ≠ postKey b)) :
    List.Perm (paginate store limits) store ∧
      (paginate store limits).Pairwise feedStrict := by
  have hlen : (sortPostsDesc (candAfter store none)).length <
      store.length + 1 := by
    have h := (sortPostsDesc_perm store).length_eq
    show (sortPostsDesc store).length < store.length + 1
    omega
  have h := paginateAux_sweep store hd limits (store.length + 1) 0 none hlen
  unfold paginate
  rw [h]
  exact ⟨sortPostsDesc_perm store, sortPostsDesc_strict hd⟩

/-- Spec §8 scenario posts: A(10,5), B(9,9), C(9,3). -/
def postA : Post :=
  ⟨10, 5, PostType.text, none, some "a", none, none, none, some "Guest"⟩

def postB : Post :=
  ⟨9, 9, PostType.text, none, some "b", none, none, none, some "Guest"⟩

def postC : Post :=
  ⟨9, 3, PostType.text, none, some "c", none, none, none, some "Guest"⟩

theorem c1_pagination_total_order_witness :
    List.Perm (paginate [postA, postB, postC] (fun _ => 2))
        [postA, postB, postC] ∧
      (paginate [postA, postB, postC] (fun _ => 2)).Pairwise feedStrict :=
  c1_pagination_total_order [postA, postB, postC] (fun _ => 2) (by decide)

/-- C3.  With a cursor decoding to `(ct, cid)`, a stored post is a
candidate for the page iff `created_at < ct OR (created_at = ct AND
id < cid)`; watermark-equal or newer posts are excluded. -/
theorem c3_keyset_predicate (store : List Post) (ct cid : Nat) (p : Post) :
    p ∈ candAfter store (some (ct, cid)) ↔
      p ∈ store ∧
        (p.created_at < ct ∨ (p.created_at = ct ∧ p.id < cid)) := by
  simp [candAfter, cursorTest, kLt, postKey, List.mem_filter]

/-- C4.  Every feed read fetches at most `limit + 1` rows; the continuation
cursor is present exactly when `limit + 1` rows were fetched; the emitted
page is the fetched rows truncated to `limit` (the extra row is dropped);
and the cursor, when present, is the watermark of the last emitted row. -/
theorem c4_overfetch_discipline (store : List Post) (limit : Int)
    (cursor : Option (Nat × Nat)) :
    (fetchRows store limit cursor).length ≤ effLimit limit + 1 ∧
      (list_posts store limit cursor).items =
        (fetchRows store limit cursor).take (effLimit limit) ∧
      ((list_posts store limit cursor).nextCursor.isSome ↔
        (fetchRows store limit cursor).length = effLimit limit + 1) ∧
      ((list_posts store limit cursor).nextCursor.isSome →
        (list_posts store limit cursor).nextCursor =
          (list_posts store limit cursor).items.getLast?.map postKey) := by
  set lim := effLimit limit with hlimdef
  set L := sortPostsDesc (candAfter store cursor) with hL
  have hlim1 : 1 ≤ lim := effLimit_pos limit
  have hlen : (fetchRows store limit cursor).length = min (lim + 1) L.length := by
    unfold fetchRows
    simp [List.length_take]
  by_cases h : lim < L.length
  · have hpg := list_posts_of_long store limit cursor (hL ▸ h)
    have hflen : (fetchRows store limit cursor).length = lim + 1 := by
      rw [hlen]; omega
    have hfr : fetchRows store limit cursor = L.take (lim + 1) := rfl
    have hitems : (L.take (lim + 1)).take lim = L.take lim := by
      rw [List.take_take]
      congr 1
      omega
    have hlast : (L.take lim).getLast? = some L[lim - 1] := by
      rw [getLast?_take_of_le hlim1 (by omega)]
      exact List.getElem?_eq_getElem (by omega)
    refine ⟨by omega, ?_, ?_, ?_⟩
    · rw [hpg, hfr, hitems]
    · rw [hpg, hflen]
      simp
    · intro _
      rw [hpg]
      simp [hlast]
  · have hpg := list_posts_of_short store limit cursor
      (by rw [← hL, ← hlimdef]; omega)
    have hflen : (fetchRows store limit cursor).length = L.length := by
      rw [hlen]; omega
    refine ⟨by omega, ?_, ?_, ?_⟩
    · rw [hpg]
      show L = (fetchRows store limit cursor).take lim
      rw [show fetchRows store limit cursor = L.take (lim + 1) from rfl,
        List.take_take]
      rw [show min lim (lim + 1) = lim by omega]
      exact (List.take_of_length_le (by omega)).symm
    · rw [hpg, hflen]
      simp
      omega
    · intro hsome
      rw [hpg] at hsome
      simp at hsome

/-- C7.  The effective page size is clamped into `[1, 50]` for every
requested limit, the returned page never holds more than 50 posts, and a
request for `limit = 0` still uses an effective page size of 1. -/
theorem c7_limit_clamped (store : List Post) (limit : Int)
    (cursor : Option (Nat × Nat)) :
    1 ≤ effLimit limit ∧ effLimit limit ≤ 50 ∧
      (list_posts store limit cursor).items.length ≤ 50 ∧
      effLimit 0 = 1 := by
  refine ⟨effLimit_pos limit, effLimit_le_fifty limit, ?_, by decide⟩
  have h : (list_posts store limit cursor).items =
      (fetchRows store limit cursor).take (effLimit limit) := rfl
  rw [h]
  calc ((fetchRows store limit cursor).take (effLimit limit)).length
      ≤ effLimit limit := List.length_take_le _ _
    _ ≤ 50 := effLimit_le_fifty limit

/-- C9.  Listing the comments of a post returns exactly the stored comments
of that post (a permutation of the filtered comment store), sorted in
ascending `(created_at, id)` order — the opposite direction of the feed
order. -/
theorem c9_comments_ascending (cstore : List Comment) (pid : Nat) :
    List.Perm (list_comments cstore pid)
        (cstore.filter (fun c => c.post_id == pid)) ∧
      (list_comments cstore pid).Pairwise commentOrder := by
  unfold list_comments
  exact ⟨List.perm_insertionSort _ _, List.sorted_insertionSort _ _⟩

/-- C10.  Listing comments for an absent post id succeeds with an empty
list (no existence check is made), while comment creation checks the parent
and fails with 404 `Post not found` when the post is absent. -/
theorem c10_absent_post (pstore : List Post) (cstore : List Comment)
    (pid : Nat) (payload : CommentCreateRequest) (user : Option User)
    (newId newTime : Nat)
    (habsent : ∀ p ∈ pstore, p.id ≠ pid)
    (hnoc : ∀ c ∈ cstore, c.post_id ≠ pid) :
    list_comments cstore pid = [] ∧
      create_comment pstore pid payload user newId newTime =
        .error ⟨404, "Post not found"⟩ := by
  constructor
  · unfold list_comments
    have h : cstore.filter (fun c => c.post_id == pid) = [] := by
      rw [List.filter_eq_nil_iff]
      intro c hc
      simpa using hnoc c hc
    rw [h]
    rfl
  · unfold create_comment
    have h : pstore.any (fun p => p.id == pid) = false := by
      rw [List.any_eq_false]
      intro p hp
      simpa using habsent p hp
    simp [h]

theorem c10_absent_post_witness :
    list_comments ([] : List Comment) 99 = [] ∧
      create_comment [postA] 99 ⟨"hi", none⟩ none 1 2 =
        .error ⟨404, "Post not found"⟩ :=
  c10_absent_post [postA] [] 99 ⟨"hi", none⟩ none 1 2 (by decide)
    (by intro c hc; simp at hc)

/-- C6.  Post creation validates per variant tag: `text` with falsy body,
`link` without a link payload, and `photo` without an image payload each
fail with the 400 client error naming the missing field and leave the
store unchanged; `link` with a present `link_url` succeeds and stores the
post. -/
theorem c6_variant_validation (store : List Post)
    (payload : PostCreateRequest) (user : Option User)
    (newId newTime : Nat) :
    (payload.ptype = PostType.text → optStrFalsy payload.body = true →
      create_post payload user newId newTime =
          .error ⟨400, "body is required for text posts"⟩ ∧
        applyCreatePost store payload user newId newTime = store) ∧
    (payload.ptype = PostType.link → payload.link_url = none →
      create_post payload user newId newTime =
          .error ⟨400, "link_url is required for link posts"⟩ ∧
        applyCreatePost store payload user newId newTime = store) ∧
    (payload.ptype = PostType.photo → payload.image_url = none →
      create_post payload user newId newTime =
          .error ⟨400, "image_url is required for photo posts"⟩ ∧
        applyCreatePost store payload user newId newTime = store) ∧
    (payload.ptype = PostType.link → payload.link_url.isSome = true →
      ∃ p, create_post payload user newId newTime = .ok p ∧
        applyCreatePost store payload user newId newTime = store ++ [p]) := by
  refine ⟨?_, ?_, ?_, ?_⟩
  · intro ht hb
    have h : create_post payload user newId newTime =
        .error ⟨400, "body is required for text posts"⟩ := by
      unfold create_post
      simp [ht, hb]
    exact ⟨h, by unfold applyCreatePost; rw [h]⟩
  · intro ht hl
    have h : create_post payload user newId newTime =
        .error ⟨400, "link_url is required for link posts"⟩ := by
      unfold create_post
      simp [ht, hl]
    exact ⟨h, by unfold applyCreatePost; rw [h]⟩
  · intro ht hi
    have h : create_post payload user newId newTime =
        .error ⟨400, "image_url is required for photo posts"⟩ := by
      unfold create_post
      simp [ht, hi]
    exact ⟨h, by unfold applyCreatePost; rw [h]⟩
  · intro ht hl
    unfold create_post
    rw [ht]
    have hnone : (payload.link_url.isNone : Bool) = false := by
      simp [Option.isNone_eq_false_iff, ← Option.isSome_iff_ne_none, hl]
    simp only [hnone]
    refine ⟨_, rfl, ?_⟩
    unfold applyCreatePost create_post
    rw [ht]
    simp [hnone]

theorem c6_variant_validation_witness :
    create_post ⟨PostType.text, none, some "", none, none, none⟩ none 1 2 =
        .error ⟨400, "body is required for text posts"⟩ ∧
      ∃ p, create_post ⟨PostType.link, none, none, some "http://x", none,
          none⟩ none 1 2 = .ok p := by
  constructor
  · exact ((c6_variant_validation []
      ⟨PostType.text, none, some "", none, none, none⟩ none 1 2).1
      rfl (by decide)).1
  · obtain ⟨p, hp, _⟩ := (c6_variant_validation []
      ⟨PostType.link, none, none, some "http://x", none, none⟩
      none 1 2).2.2.2 rfl rfl
    exact ⟨p, hp⟩

/-- C8.  Every post and comment created through the write path satisfies
the authorship mutual-exclusion invariant: with a principal, `author_id` is
set and the stored label is null; without one, `author_id` is null and the
label is set; the two are never both non-null. -/
theorem c8_author_exclusivity (payload : PostCreateRequest)
    (cpayload : CommentCreateRequest) (pstore : List Post) (pid : Nat)
    (user : Option User) (newId newTime : Nat) :
    (∀ p, create_post payload user newId newTime = .ok p →
      (user.isSome = true → p.author_id.isSome = true ∧
          p.author_name = none) ∧
      (user = none → p.author_id = none ∧ p.author_name.isSome = true) ∧
      ¬(p.author_id.isSome = true ∧ p.author_name.isSome = true)) ∧
    (∀ c, create_comment pstore pid cpayload user newId newTime = .ok c →
      (user.isSome = true → c.author_id.isSome = true ∧
          c.author_name = none) ∧
      (user = none → c.author_id = none ∧ c.author_name.isSome = true) ∧
      ¬(c.author_id.isSome = true ∧ c.author_name.isSome = true)) := by
  constructor
  · intro p hp
    unfold create_post at hp
    split_ifs at hp
    rw [Except.ok.injEq] at hp
    subst hp
    cases user with
    | none => simp
    | some u => simp
  · intro c hc
    unfold create_comment at hc
    split_ifs at hc
    rw [Except.ok.injEq] at hc
    subst hc
    cases user with
    | none => simp
    | some u => simp

theorem c8_author_exclusivity_witness :
    ((Post.mk 2 1 PostType.link none none (some "http://x") none (some 7)
        none).author_id.isSome = true ∧
      (Post.mk 2 1 PostType.link none none (some "http://x") none (some 7)
        none).author_name = none) ∧
    ((Comment.mk 1 5 2 "hi" none (some "Guest")).author_id = none ∧
      (Comment.mk 1 5 2 "hi" none (some "Guest")).author_name.isSome =
        true) := by
  constructor
  · exact ((c8_author_exclusivity
      ⟨PostType.link, none, none, some "http://x", none, none⟩
      ⟨"hi", none⟩ [postA] 5 (some ⟨7, "zoe"⟩) 1 2).1 _ rfl).1 rfl
  · exact (((c8_author_exclusivity
      ⟨PostType.link, none, none, some "http://x", none, none⟩
      ⟨"hi", none⟩ [postA] 5 none 1 2).2 _ rfl).2.1) rfl

/-- C5.  The claim FAILS on the frozen code: `Settings` (settings.py)
declares no `redis_url` field, so `get_redis` raises `AttributeError` at
`settings.redis_url` (cache.py:19) outside every try block, and — the
module global `_redis` being `None` in a fresh process and never
assignable — every call to `cache_get_json`, to `cache_set_json`, and to
the cache-wrapped feed read raises to its caller, for every transport,
parse and serialization outcome, instead of degrading to a miss / no-op /
planner page. -/
theorem c5_cache_raises {α σ : Type}
    (tget : Except Unit (Option String)) (parse : String → Except Unit α)
    (ser : Except Unit String) (setOp : String → Except Unit σ) (st : σ)
    (pparse : String → Except Unit Page)
    (store : List Post) (limit : Int) (cursor : Option (Nat × Nat)) :
    cache_get_json none tget parse = (.error () : Except Unit (Option α)) ∧
      cache_set_json none ser setOp st = .error () ∧
      list_posts_cached none tget pparse store limit cursor =
        .error () :=
  ⟨rfl, rfl, rfl⟩

/-! ## Cursor codec round trip -/

lemma b64Char_ne_61 (s : Nat) : b64Char s ≠ 61 := by
  unfold b64Char
  split_ifs <;> omega

lemma b64CharInv_b64Char : ∀ s < 64, b64CharInv (b64Char s) = some s := by
  decide

lemma b64_roundtrip : ∀ bs : List Nat, (∀ x ∈ bs, x < 256) →
    b64Decode (b64Encode bs) = some bs
  | [], _ => rfl
  | [a], h => by
    have ha : a < 256 := h a (by simp)
    have h1 : b64CharInv (b64Char (a / 4)) = some (a / 4) :=
      b64CharInv_b64Char _ (by omega)
    have h2 : b64CharInv (b64Char (a % 4 * 16)) = some (a % 4 * 16) :=
      b64CharInv_b64Char _ (by omega)
    simp only [b64Encode, b64Decode]
    simp [h1, h2]
    omega
  | [a, b], h => by
    have ha : a < 256 := h a (by simp)
    have hb : b < 256 := h b (by simp)
    have h1 : b64CharInv (b64Char (a / 4)) = some (a / 4) :=
      b64CharInv_b64Char _ (by omega)
    have h2 : b64CharInv (b64Char (a % 4 * 16 + b / 16)) =
        some (a % 4 * 16 + b / 16) := b64CharInv_b64Char _ (by omega)
    have h3 : b64CharInv (b64Char (b % 16 * 4)) = some (b % 16 * 4) :=
      b64CharInv_b64Char _ (by omega)
    simp only [b64Encode, b64Decode]
    simp [b64Char_ne_61, h1, h2, h3]
    omega
  | a :: b :: c :: rest, h => by
    have ha : a < 256 := h a (by simp)
    have hb : b < 256 := h b (by simp)
    have hc : c < 256 := h c (by simp)
    have hrest : ∀ x ∈ rest, x < 256 := fun x hx => h x (by simp [hx])
    have h1 : b64CharInv (b64Char (a / 4)) = some (a / 4) :=
      b64CharInv_b64Char _ (by omega)
    have h2 : b64CharInv (b64Char (a % 4 * 16 + b / 16)) =
        some (a % 4 * 16 + b / 16) := b64CharInv_b64Char _ (by omega)
    have h3 : b64CharInv (b64Char (b % 16 * 4 + c / 64)) =
        some (b % 16 * 4 + c / 64) := b64CharInv_b64Char _ (by omega)
    have h4 : b64CharInv (b64Char (c % 64)) = some (c % 64) :=
      b64CharInv_b64Char _ (by omega)
    have hih := b64_roundtrip rest hrest
    simp only [b64Encode, b64Decode]
    simp [b64Char_ne_61, h1, h2, h3, h4, hih]
    refine ⟨by omega, by omega, by omega⟩

lemma dropWhile_61_replicate (r : Nat) (l : List Nat) :
    List.dropWhile (fun c => c == 61) (List.replicate r 61 ++ l) =
      List.dropWhile (fun c => c == 61) l := by
  induction r with
  | zero => simp
  | succ n ih => simp [List.replicate_succ, List.dropWhile_cons]

lemma stripPad_append_pad (body : List Nat) (hb : ∀ c ∈ body, c ≠ 61)
    (r : Nat) : stripPad (body ++ List.replicate r 61) = body := by
  unfold stripPad
  rw [List.reverse_append, List.reverse_replicate, dropWhile_61_replicate]
  have hdw : List.dropWhile (fun c => c == 61) body.reverse =
      body.reverse := by
    cases hrv : body.reverse with
    | nil => rfl
    | cons x xs =>
      have hx : x ∈ body := by
        rw [← List.mem_reverse, hrv]
        simp
      rw [List.dropWhile_cons]
      simp [hb x hx]
  rw [hdw, List.reverse_reverse]

/-- Shape of a padded base64 encoding: an `=`-free body followed by at most
three `=` characters, total length a multiple of four. -/
lemma enc_shape : ∀ bs : List Nat, ∃ body r, b64Encode bs =
    body ++ List.replicate r 61 ∧ (∀ c ∈ body, c ≠ 61) ∧ r ≤ 3 ∧
      (body.length + r) % 4 = 0
  | [] => ⟨[], 0, by simp [b64Encode]⟩
  | [a] =>
    ⟨[b64Char (a / 4), b64Char (a % 4 * 16)], 2, by
      refine ⟨rfl, ?_, by omega, by simp⟩
      intro x hx
      simp only [List.mem_cons, List.not_mem_nil, or_false] at hx
      rcases hx with h | h <;> exact h ▸ b64Char_ne_61 _⟩
  | [a, b] =>
    ⟨[b64Char (a / 4), b64Char (a % 4 * 16 + b / 16), b64Char (b % 16 * 4)],
      1, by
      refine ⟨rfl, ?_, by omega, by simp⟩
      intro x hx
      simp only [List.mem_cons, List.not_mem_nil, or_false] at hx
      rcases hx with h | h | h <;> exact h ▸ b64Char_ne_61 _⟩
  | a :: b :: c :: rest => by
    obtain ⟨body, r, henc, hb, hr, hmod⟩ := enc_shape rest
    refine ⟨b64Char (a / 4) :: b64Char (a % 4 * 16 + b / 16) ::
      b64Char (b % 16 * 4 + c / 64) :: b64Char (c % 64) :: body, r, ?_, ?_,
      hr, ?_⟩
    · simp [b64Encode, henc]
    · intro x hx
      simp only [List.mem_cons] at hx
      rcases hx with h | h | h | h | h
      · exact h ▸ b64Char_ne_61 _
      · exact h ▸ b64Char_ne_61 _
      · exact h ▸ b64Char_ne_61 _
      · exact h ▸ b64Char_ne_61 _
      · exact hb x h
    · simp only [List.length_cons]
      omega

lemma repad_stripPad_enc (bs : List Nat) :
    repad (stripPad (b64Encode bs)) = b64Encode bs := by
  obtain ⟨body, r, henc, hb, hr, hmod⟩ := enc_shape bs
  rw [henc, stripPad_append_pad body hb r]
  unfold repad
  congr 1
  congr 1
  omega

lemma dropLit_append : ∀ (l r : List Nat), dropLit l (l ++ r) = some r
  | [], r => rfl
  | x :: xs, r => by
    simp only [List.cons_append, dropLit, if_pos rfl]
    exact dropLit_append xs r

lemma takeUntilQuote_append : ∀ (s : List Nat), 34 ∉ s → ∀ r : List Nat,
    takeUntilQuote (s ++ 34 :: r) = some (s, r)
  | [], _, r => by simp [takeUntilQuote]
  | c :: s', hns, r => by
    have hc : c ≠ 34 := fun h => hns (by simp [h])
    have hs' : 34 ∉ s' := fun h => hns (by simp [h])
    simp only [List.cons_append, takeUntilQuote, if_neg hc, List.append_eq]
    rw [takeUntilQuote_append s' hs' r]
    rfl

lemma parsePayload_serialize (ts pid : List Nat) (hts : 34 ∉ ts)
    (hid : 34 ∉ pid) :
    parsePayload (serializePayload ts pid) = some (ts, pid) := by
  unfold parsePayload serializePayload
  have hassoc : jsonHead ++ ts ++ (34 :: jsonMid) ++ pid ++ jsonTail =
      jsonHead ++ (ts ++ 34 :: (jsonMid ++ (pid ++ jsonTail))) := by
    simp
  rw [hassoc, dropLit_append]
  simp only [Option.bind_eq_bind, Option.some_bind]
  rw [takeUntilQuote_append ts hts]
  simp only [Option.some_bind]
  rw [dropLit_append]
  simp only [Option.some_bind]
  have htail : pid ++ jsonTail = pid ++ 34 :: [125] := rfl
  rw [htail, takeUntilQuote_append pid hid]
  simp [dropLit]

/-- C2.  For every valid rendered `(timestamp, id)` pair (ASCII, quote-free
strings, as `datetime.isoformat()` and `str(uuid)` always produce),
decoding the token produced by encoding the pair returns exactly the same
pair — in particular `decode_cursor` accepts the unpadded url-safe token
`encode_cursor` emits. -/
theorem c2_cursor_roundtrip (ts pid : List Nat)
    (hts256 : ∀ c ∈ ts, c < 256) (hts34 : 34 ∉ ts)
    (hid256 : ∀ c ∈ pid, c < 256) (hid34 : 34 ∉ pid) :
    decode_cursor (encode_cursor ts pid) = some (ts, pid) := by
  have hbytes : ∀ x ∈ serializePayload ts pid, x < 256 := by
    have hA : ∀ x ∈ jsonHead, x < 256 := by decide
    have hB : ∀ x ∈ (34 :: jsonMid), x < 256 := by decide
    have hC : ∀ x ∈ jsonTail, x < 256 := by decide
    intro x hx
    simp only [serializePayload, List.append_assoc, List.mem_append] at hx
    rcases hx with h1 | h2 | h3 | h4 | h5
    · exact hA x h1
    · exact hts256 x h2
    · exact hB x h3
    · exact hid256 x h4
    · exact hC x h5
  unfold decode_cursor encode_cursor
  rw [repad_stripPad_enc, b64_roundtrip _ hbytes]
  simp only [Option.some_bind]
  exact parsePayload_serialize ts pid hts34 hid34

/-- `2024-05-01T12:30:00+00:00` as byte codes. -/
def tsW : List Nat :=
  [50, 48, 50, 52, 45, 48, 53, 45, 48, 49, 84, 49, 50, 58, 51, 48, 58, 48,
   48, 43, 48, 48, 58, 48, 48]

/-- `00000000-0000-4000-8000-000000000001` as byte codes. -/
def idW : List Nat :=
  [48, 48, 48, 48, 48, 48, 48, 48, 45, 48, 48, 48, 48, 45, 52, 48, 48, 48,
   45, 56, 48, 48, 48, 45, 48, 48, 48, 48, 48, 48, 48, 48, 48, 48, 48, 49]

theorem c2_cursor_roundtrip_witness :
    decode_cursor (encode_cursor tsW idW) = some (tsW, idW) :=
  c2_cursor_roundtrip tsW idW (by decide) (by decide) (by decide) (by decide)

end BartenderJournal
